import Mathlib

/-!
Verification of the packing-slip / shipping-label sorting pipeline (app.py).

The pipeline is embedded shallowly at the level of parsed page content: a
packing-slip page is represented by the list of (product title, size,
quantity) records that `extract_product_details` yields for it, and a
shipping-label page is an opaque value of an arbitrary type.  All string
operations used by the code (`lower`, `strip`, `split(',')[0]`, `','.join`,
substring search, `int()` parsing, Python string comparison) are modelled
as executable functions over `List Char`, matching Python's code-point
semantics on the ASCII inputs the program handles.
-/

/-! ### Character and string primitives (models of Python str operations) -/

/-- Whitespace test used by the model of Python `str.strip`. -/
def chIsWS (c : Char) : Bool :=
  c = ' ' || c = '\t' || c = '\n' || c = '\r' || c = '\x0b' || c = '\x0c'

/-- ASCII lower-casing of one character, as in Python `str.lower` on ASCII text. -/
def lowChar (c : Char) : Char :=
  if 65 ≤ c.toNat ∧ c.toNat ≤ 90 then Char.ofNat (c.toNat + 32) else c

/-- ASCII upper-casing of one character, as in Python `str.upper` on ASCII text. -/
def upChar (c : Char) : Char :=
  if 97 ≤ c.toNat ∧ c.toNat ≤ 122 then Char.ofNat (c.toNat - 32) else c

/-- Model of Python `str.lower` (ASCII). -/
def lowerChars (l : List Char) : List Char := l.map lowChar

/-- Model of Python `str.upper` (ASCII). -/
def upperChars (l : List Char) : List Char := l.map upChar

/-- Model of Python `str.strip`: drop whitespace from both ends. -/
def trimChars (l : List Char) : List Char :=
  ((l.dropWhile chIsWS).reverse.dropWhile chIsWS).reverse

/-- Tests whether the first list is an initial segment of the second. -/
def leadsWith : List Char → List Char → Bool
  | [], _ => true
  | _ :: _, [] => false
  | a :: as, b :: bs => a == b && leadsWith as bs

/-- Contiguous-substring test, model of Python `needle in haystack`. -/
def hasSub (needle : List Char) : List Char → Bool
  | [] => leadsWith needle []
  | c :: cs => leadsWith needle (c :: cs) || hasSub needle cs

/-- Lexicographic code-point order on character lists, model of Python `str <=`. -/
def chLe : List Char → List Char → Bool
  | [], _ => true
  | _ :: _, [] => false
  | a :: as, b :: bs =>
    if a < b then true
    else if b < a then false
    else chLe as bs

/-- Python string order, lifted to `String`. -/
def strLeb (a b : String) : Bool := chLe a.toList b.toList

/-- Propositional form of `strLeb`. -/
def strLe (a b : String) : Prop := strLeb a b = true

/-- Digit test for the model of Python `int()`. -/
def chIsDigit (c : Char) : Bool := 48 ≤ c.toNat && c.toNat ≤ 57

/-- Numeric value of a digit string. -/
def digitsVal (l : List Char) : Int :=
  l.foldl (fun n c => n * 10 + ((c.toNat : Int) - 48)) 0

/-- Parses a nonempty all-digit character list; `none` otherwise. -/
def parseDigits (l : List Char) : Option Int :=
  if l ≠ [] ∧ l.all chIsDigit then some (digitsVal l) else none

/-- Model of Python `int(s)` on decimal literals: surrounding whitespace and an
optional sign are accepted; anything else raises (returns `none`). -/
def parseIntChars (l : List Char) : Option Int :=
  match trimChars l with
  | '+' :: ds => parseDigits ds
  | '-' :: ds => (parseDigits ds).map (fun n => -n)
  | ds => parseDigits ds

/-- Model of Python `int(s)` on a `String`. -/
def parseIntStr (s : String) : Option Int := parseIntChars s.toList

/-- Fuel-driven worker for `removeAll` (fuel bounds the scan length). -/
def removeAllAux (pat : List Char) : Nat → List Char → List Char
  | _, [] => []
  | 0, l => l
  | fuel + 1, c :: cs =>
    if leadsWith pat (c :: cs) then removeAllAux pat fuel (cs.drop (pat.length - 1))
    else c :: removeAllAux pat fuel cs

/-- Model of Python `s.replace(pat, '')` for a nonempty pattern: removes every
non-overlapping occurrence, scanning left to right. -/
def removeAll (pat l : List Char) : List Char := removeAllAux pat l.length l

/-! ### Source embedding: configuration and leaf functions of app.py -/

/-- The fixed area priority list `AREA_SORT_ORDER` of app.py. -/
def AREA_SORT_ORDER : List String :=
  ["A13", "D16", "B11", "B12", "B13", "B14", "B16", "B17", "B18", "B19", "garage"]

/-- Position of the first occurrence of a string in a list, or the list's
length when absent: the combined semantics of `lst.index(x) if x in lst else
len(lst)` used by `sort_key`. -/
def idxOf (a : String) : List String → Nat
  | [] => 0
  | b :: bs => if a = b then 0 else 1 + idxOf a bs

/-- The warehouse map: a lookup from normalized product name to area, the
model of the Python dict built by `load_warehouse_map_dict`. -/
abbrev WarehouseMap : Type := String → Option String

/-- A parsed line item `(product_title, size, quantity)` as produced by
`extract_product_details`; all three components are strings. -/
abbrev Item : Type := String × String × String

/-- A packing-slip page, represented by its parsed product details. -/
abbrev SlipPage : Type := List Item

/-- Normalization `title.lower().strip()` applied by the pipeline before area
lookup. -/
def normTitle (s : String) : String := String.mk (trimChars (lowerChars s.toList))

/-- Case-insensitive test for the substring "sample", the model of
`'sample' in product.lower()`. -/
def containsSampleStr (s : String) : Bool :=
  hasSub "sample".toList (lowerChars s.toList)

/-- The area resolver `get_warehouse_area` of app.py: the sample override
first, then exact dict lookup, then the sentinel. -/
def get_warehouse_area (product : String) (wm : WarehouseMap) : String :=
  if containsSampleStr product then "garage"
  else
    match wm product with
    | some area => area
    | none => "Unknown Area"

/-! ### Stable sorting (model of Python `sorted`, which is a stable sort) -/

/-- Inserts an element into a sorted list, before the first element it is
`le`-below-or-equal to; used to realize Python's stable `sorted`. -/
def insertSorted (le : α → α → Bool) (a : α) : List α → List α
  | [] => [a]
  | b :: bs => if le a b then a :: b :: bs else b :: insertSorted le a bs

/-- Stable insertion sort: the unique stable sort, hence the semantics of
Python `sorted` with the corresponding key. -/
def insertionSort (le : α → α → Bool) : List α → List α
  | [] => []
  | a :: as => insertSorted le a (insertionSort le as)

/-- Python `', '.join` on a list of strings. -/
def joinComma : List String → String
  | [] => ""
  | [a] => a
  | a :: b :: rest => a ++ ", " ++ joinComma (b :: rest)

/-- The area-label composer `determine_area_identifier` of app.py.  The
Python set of areas is modelled as a duplicate-free list (built by
`setInsert`); the composer only uses its membership, cardinality and sorted
order, so the list order is irrelevant (proved below). -/
def determine_area_identifier (product_areas : List String) : String :=
  if "B16" ∈ product_areas ∧ 1 < product_areas.length then
    joinComma (insertionSort strLeb (product_areas.filter (fun a => a != "B16")))
  else
    joinComma (insertionSort strLeb product_areas)

/-- Set-insertion into the duplicate-free list modelling a Python set. -/
def setInsert (a : String) (l : List String) : List String :=
  if a ∈ l then l else l ++ [a]

/-- The set of areas resolved from a page's items (loop body of Step 2 in
`process_packing_slips_and_labels`). -/
def areasOfPage (wm : WarehouseMap) (p : SlipPage) : List String :=
  p.foldl (fun acc it => setInsert (get_warehouse_area (normTitle it.1) wm) acc) []

/-- Whether any parsed item's title contains "sample"
(`has_samples` in Step 2). -/
def hasSamples (p : SlipPage) : Bool :=
  p.any (fun it => containsSampleStr it.1)

/-- The page keep/drop decision of Step 2: pages with no parsed details are
skipped, then pages with no areas and no samples are skipped. -/
def pageKept (wm : WarehouseMap) (p : SlipPage) : Bool :=
  if p.isEmpty then false
  else if areasOfPage wm p = [] ∧ hasSamples p = false then false
  else true

/-- The primary product title of a kept page: the first parsed item's
normalized title, or the empty string (lines 602-608 of app.py). -/
def primaryTitle (p : SlipPage) : String :=
  match p with
  | [] => ""
  | it :: _ => normTitle it.1

/-- One entry of `pages_with_info`: the kept page (its parsed content stands
in for the annotated PDF page), its composed area label, its original page
index, and its primary product title. -/
structure PageInfo where
  origIndex : Nat
  items : SlipPage
  areas : List String
  areaLabel : String
  primaryProduct : String

/-- Builds the `pages_with_info` entry for one kept page. -/
def mkInfo (wm : WarehouseMap) (i : Nat) (p : SlipPage) : PageInfo :=
  { origIndex := i
    items := p
    areas := areasOfPage wm p
    areaLabel := determine_area_identifier (areasOfPage wm p)
    primaryProduct := primaryTitle p }

/-- The filtering loop of Step 2, carrying the running original index. -/
def keptInfosAux (wm : WarehouseMap) : Nat → List SlipPage → List PageInfo
  | _, [] => []
  | i, p :: rest =>
    if pageKept wm p then mkInfo wm i p :: keptInfosAux wm (i + 1) rest
    else keptInfosAux wm (i + 1) rest

/-- The parallel kept lists of Step 2 (pages, indices, areas, labels,
titles), bundled per page. -/
def keptInfos (wm : WarehouseMap) (slips : List SlipPage) : List PageInfo :=
  keptInfosAux wm 0 slips

/-- `get_primary_area`: the text before the first comma, stripped
(`area_identifier.split(',')[0].strip()`). -/
def get_primary_area (area_identifier : String) : String :=
  String.mk (trimChars (area_identifier.toList.takeWhile (fun c => c != ',')))

/-- The primary sort component of `sort_key`: the index of the primary area
in `AREA_SORT_ORDER`, or its length when the area is not listed. -/
def area_sort_value (primary_area : String) : Nat :=
  idxOf primary_area AREA_SORT_ORDER

/-- The sort key `(area_sort_value, product_title)` of `sort_key` in app.py. -/
def sort_key (info : PageInfo) : Nat × String :=
  (area_sort_value (get_primary_area info.areaLabel), info.primaryProduct)

/-- Python tuple comparison on `(int, str)` keys, as a Bool-valued order. -/
def keyLeb (k1 k2 : Nat × String) : Bool :=
  if k1.1 < k2.1 then true
  else if k2.1 < k1.1 then false
  else strLeb k1.2 k2.2

/-- The page order used by `sorted(pages_with_info, key=sort_key)`. -/
def infoLeb (a b : PageInfo) : Bool := keyLeb (sort_key a) (sort_key b)

/-- The sorting step (Step 5): Python's stable `sorted` by `sort_key`. -/
def sortInfos (l : List PageInfo) : List PageInfo := insertionSort infoLeb l

/-- The list `indices_to_keep` of Step 2, read off the kept page infos. -/
def keptIdxList (wm : WarehouseMap) (slips : List SlipPage) : List Nat :=
  (keptInfos wm slips).map (fun i => i.origIndex)

/-- The list `sorted_indices` of Step 5. -/
def sortedIdxList (wm : WarehouseMap) (slips : List SlipPage) : List Nat :=
  (sortInfos (keptInfos wm slips)).map (fun i => i.origIndex)

/-! ### The run: Steps 1-7 of process_packing_slips_and_labels -/

/-- Observable outcome of one run: the kept and sorted index lists, the
sorted page infos, whether the sorted-packing-slips file exists at its
target path, the content of the sorted-shipping-labels file (`none` when it
was never written), and whether the run ended in an error popup. -/
structure RunResult (α : Type) where
  keptIndices : List Nat
  sortedIndices : List Nat
  sortedInfos : List PageInfo
  slipFileExists : Bool
  labelFile : Option (List α)
  aborted : Bool

/-- The shipping-label write loop: pages of the label deck pulled in sorted
original-index order, skipping (with only a log line) any out-of-range
index. -/
def buildLabelDeck (labels : List α) (idxs : List Nat) : List α :=
  idxs.filterMap (fun j => labels[j]?)

/-- The whole run of `process_packing_slips_and_labels`, at the data level.
`slips` is the packing-slip deck (each page already parsed), `labels` the
shipping-label deck, `slipWriteOk` whether the file write inside `save_pdf`
for the sorted packing slips succeeds (`save_pdf` catches a failure, pops an
error and returns, so the run continues either way).  Control flow follows
the source: empty-deck check, filtering, sorting, the packing-slips file
write, then the label-deck page-count check, the index-range check, and the
label write. -/
def runFull (wm : WarehouseMap) (slips : List SlipPage) (labels : List α)
    (slipWriteOk : Bool) : RunResult α :=
  if slips.length = 0 then
    { keptIndices := [], sortedIndices := [], sortedInfos := []
      slipFileExists := false, labelFile := none, aborted := true }
  else if (keptInfos wm slips).isEmpty then
    { keptIndices := [], sortedIndices := [], sortedInfos := []
      slipFileExists := false, labelFile := none, aborted := true }
  else if labels.length ≠ slips.length then
    { keptIndices := keptIdxList wm slips, sortedIndices := sortedIdxList wm slips
      sortedInfos := sortInfos (keptInfos wm slips), slipFileExists := slipWriteOk
      labelFile := none, aborted := true }
  else if ((sortedIdxList wm slips).filter (fun j => labels.length ≤ j)).isEmpty = false then
    { keptIndices := keptIdxList wm slips, sortedIndices := sortedIdxList wm slips
      sortedInfos := sortInfos (keptInfos wm slips), slipFileExists := slipWriteOk
      labelFile := none, aborted := true }
  else
    { keptIndices := keptIdxList wm slips, sortedIndices := sortedIdxList wm slips
      sortedInfos := sortInfos (keptInfos wm slips), slipFileExists := slipWriteOk
      labelFile := some (buildLabelDeck labels (sortedIdxList wm slips)), aborted := false }

/-! ### Summary aggregation (generate_summary and create_summary_pdf_page) -/

/-- Appends one item to its area's bucket, keeping dict insertion order
(`summary_data[area].append(...)`). -/
def addToBucket (acc : List (String × List Item)) (a : String) (it : Item) :
    List (String × List Item) :=
  match acc with
  | [] => [(a, [it])]
  | (a', its) :: rest =>
    if a' = a then (a', its ++ [it]) :: rest else (a', its) :: addToBucket rest a it

/-- Folds one page's items into the summary buckets (inner loop of
`generate_summary`). -/
def pageIntoSummary (wm : WarehouseMap) (acc : List (String × List Item))
    (p : SlipPage) : List (String × List Item) :=
  p.foldl (fun a2 it => addToBucket a2 (get_warehouse_area (normTitle it.1) wm) it) acc

/-- `generate_summary`'s data: buckets of `(title, size, quantity)` per
area, built from the kept pages only. -/
def summaryData (wm : WarehouseMap) (slips : List SlipPage) (idxs : List Nat) :
    List (String × List Item) :=
  idxs.foldl
    (fun acc idx =>
      match slips[idx]? with
      | none => acc
      | some p => pageIntoSummary wm acc p)
    []

/-- The areas that get a manifest section: `create_summary_pdf_page` iterates
`AREA_SORT_ORDER` and keeps those areas that have a bucket. -/
def manifestAreas (sd : List (String × List Item)) : List String :=
  AREA_SORT_ORDER.filter (fun a => sd.any (fun b => b.1 = a))

/-- The size ranking `size_sort_key` of app.py: "size N" prefixes and bare
numerals map to N, letter sizes XS..XXL to 1..6, anything else to 100. -/
def letterSizeVal (l : List Char) : Int :=
  if l = "XS".toList then 1
  else if l = "S".toList then 2
  else if l = "M".toList then 3
  else if l = "L".toList then 4
  else if l = "XL".toList then 5
  else if l = "XXL".toList then 6
  else 100

/-- The source's `size_sort_key`. -/
def size_sort_key (size : String) : Int :=
  let size_clean := trimChars (lowerChars size.toList)
  let fromSizeWord : Option Int :=
    if leadsWith "size ".toList size_clean then
      parseIntChars (trimChars (removeAll "size ".toList size_clean))
    else none
  match fromSizeWord with
  | some n => n
  | none =>
    match parseIntChars size_clean with
    | some n => n
    | none => letterSizeVal (upperChars size.toList)

/-- The row order of `sorted(products, key=lambda x: (x[0].lower(),
size_sort_key(x[1])))`. -/
def productRowLeb (x y : Item) : Bool :=
  if lowerChars x.1.toList = lowerChars y.1.toList then
    decide (size_sort_key x.2.1 ≤ size_sort_key y.2.1)
  else chLe (lowerChars x.1.toList) (lowerChars y.1.toList)

/-- Sorting of one area's bucket in `create_summary_pdf_page`. -/
def sortProducts (rows : List Item) : List Item := insertionSort productRowLeb rows

/-- Adds a quantity under a `(title, size)` key in the merged-row list,
keeping dict insertion order (`unique_products`). -/
def upsertQty (acc : List ((String × String) × Int)) (k : String × String)
    (n : Int) : List ((String × String) × Int) :=
  match acc with
  | [] => [(k, n)]
  | (k', m) :: rest =>
    if k' = k then (k', m + n) :: rest else (k', m) :: upsertQty rest k n

/-- One step of the merge loop of `create_summary_pdf_page`: an entry whose
quantity fails `int()` parsing is skipped (with a warning), otherwise its
quantity is added under its `(title, size)` key. -/
def uniqueStep (acc : List ((String × String) × Int)) (it : Item) :
    List ((String × String) × Int) :=
  match parseIntStr it.2.2 with
  | none => acc
  | some n => upsertQty acc (it.1, it.2.1) n

/-- The `unique_products` merge of `create_summary_pdf_page`. -/
def uniqueProducts (rows : List Item) : List ((String × String) × Int) :=
  rows.foldl uniqueStep []

/-- Association-list lookup in the merged rows. -/
def lookupQty (l : List ((String × String) × Int)) (k : String × String) :
    Option Int :=
  match l with
  | [] => none
  | (k', m) :: rest => if k' = k then some m else lookupQty rest k

/-- The integer-parsed quantities of the bucket entries carrying a given
`(title, size)` key; used to state what the merged row must sum. -/
def matchingQtys (rows : List Item) (k : String × String) : List Int :=
  (rows.filter (fun r => decide ((r.1, r.2.1) = k))).filterMap
    (fun r => parseIntStr r.2.2)

/-! ### Statement-level helpers and concrete inputs -/

/-- The propositional form of the Python tuple order on `(int, str)` sort
keys, used to state sortedness. -/
def keyLe (k1 k2 : Nat × String) : Prop :=
  k1.1 < k2.1 ∨ (k1.1 = k2.1 ∧ strLe k1.2 k2.2)

/-- The area set that `determine_area_identifier` actually renders: the
input set, minus "B16" when the set has more than one member and contains
it. -/
def effectiveAreas (s : List String) : List String :=
  if "B16" ∈ s ∧ 1 < s.length then s.filter (fun a => a != "B16") else s

/-- A concrete warehouse map for the concrete evaluations: "tee" is stored
in locker B11. -/
def wmEx : WarehouseMap := fun s => if s = "tee" then some "B11" else none

/-- A concrete warehouse map whose entry "blue sample tee" also contains the
substring "sample". -/
def wmSamp : WarehouseMap := fun s =>
  if s = "blue sample tee" then some "A13"
  else if s = "tee" then some "B11" else none

/-- The empty warehouse map: every lookup misses. -/
def wmNone : WarehouseMap := fun _ => none

/-- A concrete one-page packing-slip deck with a single mapped item. -/
def slipsEx : List SlipPage := [[("Tee", "M", "2")]]

/-! ### Order facts for the Python string order -/

theorem chLe_refl (l : List Char) : chLe l l = true := by
  induction l with
  | nil => rfl
  | cons a as ih => simp [chLe, lt_irrefl, ih]

theorem chLe_total (a b : List Char) : (chLe a b || chLe b a) = true := by
  induction a generalizing b with
  | nil => simp [chLe]
  | cons x xs ih =>
    cases b with
    | nil => simp [chLe]
    | cons y ys =>
      rcases lt_trichotomy x y with hxy | rfl | hxy
      · simp [chLe, hxy]
      · simp only [chLe, lt_irrefl, if_false]
        exact ih ys
      · simp [chLe, hxy, asymm hxy]

theorem chLe_trans {a b c : List Char} (h1 : chLe a b = true) (h2 : chLe b c = true) :
    chLe a c = true := by
  induction a generalizing b c with
  | nil => rfl
  | cons x xs ih =>
    cases b with
    | nil => simp [chLe] at h1
    | cons y ys =>
      cases c with
      | nil => simp [chLe] at h2
      | cons z zs =>
        rcases lt_trichotomy x y with hxy | rfl | hxy
        · rcases lt_trichotomy y z with hyz | rfl | hyz
          · simp [chLe, lt_trans hxy hyz]
          · simp [chLe, hxy]
          · simp [chLe, hyz, asymm hyz] at h2
        · rcases lt_trichotomy x z with hxz | rfl | hxz
          · simp [chLe, hxz]
          · simp only [chLe, lt_irrefl, if_false] at h1 h2 ⊢
            exact ih h1 h2
          · simp [chLe, hxz, asymm hxz] at h2
        · simp [chLe, hxy, asymm hxy] at h1

theorem chLe_antisymm {a b : List Char} (h1 : chLe a b = true) (h2 : chLe b a = true) :
    a = b := by
  induction a generalizing b with
  | nil =>
    cases b with
    | nil => rfl
    | cons y ys => simp [chLe] at h2
  | cons x xs ih =>
    cases b with
    | nil => simp [chLe] at h1
    | cons y ys =>
      rcases lt_trichotomy x y with hxy | rfl | hxy
      · simp [chLe, hxy, asymm hxy] at h2
      · simp only [chLe, lt_irrefl, if_false] at h1 h2
        rw [ih h1 h2]
      · simp [chLe, hxy, asymm hxy] at h1

theorem strLeb_refl (a : String) : strLeb a a = true := chLe_refl _

theorem strLeb_total (a b : String) : (strLeb a b || strLeb b a) = true :=
  chLe_total _ _

theorem strLeb_trans {a b c : String} (h1 : strLeb a b = true)
    (h2 : strLeb b c = true) : strLeb a c = true := chLe_trans h1 h2

theorem strLeb_antisymm {a b : String} (h1 : strLeb a b = true)
    (h2 : strLeb b a = true) : a = b := by
  cases a with
  | mk la =>
    cases b with
    | mk lb => exact congrArg String.mk (chLe_antisymm h1 h2)

/-! ### Stable insertion sort: permutation, sortedness, stability -/

theorem insertSorted_perm (le : α → α → Bool) (a : α) (l : List α) :
    (insertSorted le a l).Perm (a :: l) := by
  induction l with
  | nil => exact List.Perm.refl _
  | cons b bs ih =>
    by_cases h : le a b = true
    · simp [insertSorted, h]
    · simp only [insertSorted, if_neg h]
      exact (ih.cons b).trans (List.Perm.swap a b bs)

theorem insertionSort_perm (le : α → α → Bool) (l : List α) :
    (insertionSort le l).Perm l := by
  induction l with
  | nil => exact List.Perm.refl _
  | cons a as ih => exact (insertSorted_perm le a (insertionSort le as)).trans (ih.cons a)

theorem mem_insertionSort {le : α → α → Bool} {l : List α} {x : α} :
    x ∈ insertionSort le l ↔ x ∈ l := (insertionSort_perm le l).mem_iff

theorem insertSorted_pairwise {le : α → α → Bool}
    (total : ∀ a b, (le a b || le b a) = true)
    (trans : ∀ a b c, le a b = true → le b c = true → le a c = true)
    (a : α) {l : List α} (hl : l.Pairwise (fun x y => le x y = true)) :
    (insertSorted le a l).Pairwise (fun x y => le x y = true) := by
  induction l with
  | nil => simp [insertSorted]
  | cons b bs ih =>
    rcases List.pairwise_cons.mp hl with ⟨hb, hbs⟩
    by_cases h : le a b = true
    · simp only [insertSorted, if_pos h]
      refine List.pairwise_cons.mpr ⟨?_, hl⟩
      intro y hy
      rcases List.mem_cons.mp hy with rfl | hy2
      · exact h
      · exact trans a b y h (hb y hy2)
    · have hba : le b a = true := by
        have ht := total a b
        rcases Bool.or_eq_true_iff.mp ht with h1 | h1
        · exact absurd h1 h
        · exact h1
      simp only [insertSorted, if_neg h]
      refine List.pairwise_cons.mpr ⟨?_, ih hbs⟩
      intro y hy
      have hy' : y ∈ a :: bs := (insertSorted_perm le a bs).subset hy
      rcases List.mem_cons.mp hy' with rfl | hy2
      · exact hba
      · exact hb y hy2

theorem insertionSort_pairwise {le : α → α → Bool}
    (total : ∀ a b, (le a b || le b a) = true)
    (trans : ∀ a b c, le a b = true → le b c = true → le a c = true)
    (l : List α) :
    (insertionSort le l).Pairwise (fun x y => le x y = true) := by
  induction l with
  | nil => simp [insertionSort]
  | cons a as ih => exact insertSorted_pairwise total trans a ih

theorem filter_insertSorted_pos {le : α → α → Bool} {p : α → Bool} {a : α}
    (hpa : p a = true) {l : List α}
    (hle : ∀ x ∈ l, p x = true → le a x = true) :
    (insertSorted le a l).filter p = a :: l.filter p := by
  induction l with
  | nil => simp [insertSorted, hpa]
  | cons b bs ih =>
    by_cases h : le a b = true
    · simp [insertSorted, h, List.filter_cons, hpa]
    · have hpb : p b = false := by
        cases hpb : p b with
        | false => rfl
        | true => exact absurd (hle b (by simp) hpb) h
      have ih' := ih (fun x hx hpx => hle x (List.mem_cons_of_mem b hx) hpx)
      simp [insertSorted, if_neg h, List.filter_cons, hpb, ih']

theorem filter_insertSorted_neg {le : α → α → Bool} {p : α → Bool} {a : α}
    (hpa : p a = false) (l : List α) :
    (insertSorted le a l).filter p = l.filter p := by
  induction l with
  | nil => simp [insertSorted, hpa]
  | cons b bs ih =>
    by_cases h : le a b = true
    · simp [insertSorted, h, List.filter_cons, hpa]
    · simp only [insertSorted, if_neg h, List.filter_cons]
      rw [ih]

theorem filter_insertionSort {le : α → α → Bool} {p : α → Bool}
    (hcomp : ∀ x y, p x = true → p y = true → le x y = true) (l : List α) :
    (insertionSort le l).filter p = l.filter p := by
  induction l with
  | nil => rfl
  | cons a as ih =>
    cases hpa : p a with
    | true =>
      rw [insertionSort,
        filter_insertSorted_pos hpa (fun x _ hpx => hcomp a x hpa hpx), ih]
      simp [List.filter_cons, hpa]
    | false =>
      rw [insertionSort, filter_insertSorted_neg hpa, ih]
      simp [List.filter_cons, hpa]

/-! ### The page sort key order -/

theorem keyLeb_refl (k : Nat × String) : keyLeb k k = true := by
  simp [keyLeb, lt_irrefl, strLeb_refl]

theorem keyLeb_total (k1 k2 : Nat × String) : (keyLeb k1 k2 || keyLeb k2 k1) = true := by
  rcases lt_trichotomy k1.1 k2.1 with h | h | h
  · simp [keyLeb, h]
  · simp only [keyLeb, h, lt_irrefl, if_false]
    exact strLeb_total _ _
  · simp [keyLeb, h, asymm h]

theorem keyLeb_trans {k1 k2 k3 : Nat × String} (h1 : keyLeb k1 k2 = true)
    (h2 : keyLeb k2 k3 = true) : keyLeb k1 k3 = true := by
  rcases lt_trichotomy k1.1 k2.1 with ha | ha | ha
  · rcases lt_trichotomy k2.1 k3.1 with hb | hb | hb
    · simp [keyLeb, lt_trans ha hb]
    · have hc : k1.1 < k3.1 := by omega
      simp [keyLeb, hc]
    · simp [keyLeb, hb, asymm hb] at h2
  · rcases lt_trichotomy k2.1 k3.1 with hb | hb | hb
    · have hc : k1.1 < k3.1 := by omega
      simp [keyLeb, hc]
    · have hc : k1.1 = k3.1 := by omega
      have h1' : strLeb k1.2 k2.2 = true := by
        simpa [keyLeb, ha, lt_irrefl] using h1
      have h2' : strLeb k2.2 k3.2 = true := by
        simpa [keyLeb, hb, lt_irrefl] using h2
      simp [keyLeb, hc, lt_irrefl, strLeb_trans h1' h2']
    · simp [keyLeb, hb, asymm hb] at h2
  · simp [keyLeb, ha, asymm ha] at h1

theorem keyLeb_iff {k1 k2 : Nat × String} : keyLeb k1 k2 = true ↔ keyLe k1 k2 := by
  unfold keyLeb keyLe strLe
  rcases lt_trichotomy k1.1 k2.1 with h | h | h
  · simp [h]
  · simp [h, lt_irrefl]
  · have hne : k1.1 ≠ k2.1 := by omega
    simp [h, asymm h, hne]

theorem infoLeb_total (a b : PageInfo) : (infoLeb a b || infoLeb b a) = true :=
  keyLeb_total _ _

theorem infoLeb_trans (a b c : PageInfo) (h1 : infoLeb a b = true)
    (h2 : infoLeb b c = true) : infoLeb a c = true := keyLeb_trans h1 h2

/-! ### The filtering loop -/

theorem keptInfosAux_sound {wm : WarehouseMap} {i : Nat} {slips : List SlipPage}
    {info : PageInfo} (h : info ∈ keptInfosAux wm i slips) :
    ∃ j p, slips[j]? = some p ∧ pageKept wm p = true ∧ info = mkInfo wm (i + j) p := by
  induction slips generalizing i with
  | nil => simp [keptInfosAux] at h
  | cons q rest ih =>
    by_cases hk : pageKept wm q = true
    · rw [keptInfosAux, if_pos hk] at h
      rcases List.mem_cons.mp h with rfl | h2
      · exact ⟨0, q, by simp, hk, rfl⟩
      · rcases ih h2 with ⟨j, p, hget, hkept, heq⟩
        refine ⟨j + 1, p, by simpa using hget, hkept, ?_⟩
        have harith : i + (j + 1) = i + 1 + j := by omega
        rw [harith]
        exact heq
    · rw [keptInfosAux, if_neg hk] at h
      rcases ih h with ⟨j, p, hget, hkept, heq⟩
      refine ⟨j + 1, p, by simpa using hget, hkept, ?_⟩
      have harith : i + (j + 1) = i + 1 + j := by omega
      rw [harith]
      exact heq

theorem keptInfos_sound {wm : WarehouseMap} {slips : List SlipPage}
    {info : PageInfo} (h : info ∈ keptInfos wm slips) :
    slips[info.origIndex]? = some info.items ∧ pageKept wm info.items = true ∧
      info = mkInfo wm info.origIndex info.items := by
  rcases keptInfosAux_sound h with ⟨j, p, hget, hkept, heq⟩
  rw [Nat.zero_add] at heq
  have hidx : info.origIndex = j := by rw [heq]; rfl
  have hitems : info.items = p := by rw [heq]; rfl
  rw [hidx, hitems]
  exact ⟨hget, hkept, heq⟩

/-! ### The label-deck correlation -/

theorem buildLabelDeck_getElem {α : Type} {labels : List α} {idxs : List Nat}
    (hall : ∀ j ∈ idxs, j < labels.length) (i : Nat) :
    (buildLabelDeck labels idxs)[i]? = idxs[i]?.bind (fun j => labels[j]?) := by
  induction idxs generalizing i with
  | nil => simp [buildLabelDeck]
  | cons j js ih =>
    have hj : j < labels.length := hall j (by simp)
    have hv : labels[j]? = some labels[j] := List.getElem?_eq_getElem hj
    cases i with
    | zero => simp [buildLabelDeck, List.filterMap_cons, hv]
    | succ n =>
      have ih' := ih (fun x hx => hall x (List.mem_cons_of_mem j hx)) n
      simpa [buildLabelDeck, List.filterMap_cons, hv] using ih'

theorem buildLabelDeck_length {α : Type} {labels : List α} {idxs : List Nat}
    (hall : ∀ j ∈ idxs, j < labels.length) :
    (buildLabelDeck labels idxs).length = idxs.length := by
  induction idxs with
  | nil => rfl
  | cons j js ih =>
    have hj : j < labels.length := hall j (by simp)
    have hv : labels[j]? = some labels[j] := List.getElem?_eq_getElem hj
    have ih' := ih (fun x hx => hall x (List.mem_cons_of_mem j hx))
    simp [buildLabelDeck, List.filterMap_cons, hv] at ih' ⊢
    exact ih'

/-! ### Run-level helper lemmas -/

theorem runFull_label_some {α : Type} {wm : WarehouseMap} {slips : List SlipPage}
    {labels : List α} {ok : Bool} {L : List α}
    (h : (runFull wm slips labels ok).labelFile = some L) :
    L = buildLabelDeck labels (sortedIdxList wm slips) ∧
    (runFull wm slips labels ok).sortedIndices = sortedIdxList wm slips ∧
    (runFull wm slips labels ok).sortedInfos = sortInfos (keptInfos wm slips) ∧
    (∀ j ∈ sortedIdxList wm slips, j < labels.length) := by
  by_cases h1 : slips.length = 0
  · simp [runFull, h1] at h
  · by_cases h2 : (keptInfos wm slips).isEmpty
    · simp [runFull, h1, h2] at h
    · by_cases h3 : labels.length ≠ slips.length
      · simp [runFull, h1, h2, h3] at h
      · by_cases h4 :
          (((sortedIdxList wm slips).filter (fun j => labels.length ≤ j)).isEmpty = false)
        · simp [runFull, h1, h2, h3, h4] at h
        · have hfe : ((sortedIdxList wm slips).filter (fun j => labels.length ≤ j)) = [] := by
            rcases hx : ((sortedIdxList wm slips).filter (fun j => labels.length ≤ j)) with _ | ⟨y, ys⟩
            · rfl
            · exact absurd (by simp [hx]) h4
          have hall : ∀ j ∈ sortedIdxList wm slips, j < labels.length := by
            intro j hj
            by_contra hc
            have hle : labels.length ≤ j := Nat.le_of_not_lt hc
            have : j ∈ ((sortedIdxList wm slips).filter (fun j => labels.length ≤ j)) := by
              simp [List.mem_filter, hj, hle]
            rw [hfe] at this
            simp at this
          have hrun : (runFull wm slips labels ok).labelFile =
              some (buildLabelDeck labels (sortedIdxList wm slips)) := by
            simp [runFull, h1, h2, h3, h4]
          rw [hrun] at h
          have hL : L = buildLabelDeck labels (sortedIdxList wm slips) :=
            (Option.some.injEq _ _ ▸ h).symm
          refine ⟨hL, ?_, ?_, hall⟩
          · simp [runFull, h1, h2, h3, h4]
          · simp [runFull, h1, h2, h3, h4]

theorem runFull_indices_sound {α : Type} {wm : WarehouseMap} {slips : List SlipPage}
    {labels : List α} {ok : Bool} {j : Nat}
    (h : j ∈ (runFull wm slips labels ok).keptIndices ∨
         j ∈ (runFull wm slips labels ok).sortedIndices) :
    ∃ info ∈ keptInfos wm slips, info.origIndex = j := by
  have hsub : ∀ {i : Nat}, i ∈ keptIdxList wm slips ∨ i ∈ sortedIdxList wm slips →
      ∃ info ∈ keptInfos wm slips, info.origIndex = i := by
    intro i hi
    rcases hi with hi | hi
    · unfold keptIdxList at hi
      rcases List.mem_map.mp hi with ⟨info, hinfo, hidx⟩
      exact ⟨info, hinfo, hidx⟩
    · unfold sortedIdxList sortInfos at hi
      rcases List.mem_map.mp hi with ⟨info, hinfo, hidx⟩
      exact ⟨info, mem_insertionSort.mp hinfo, hidx⟩
  by_cases h1 : slips.length = 0
  · simp [runFull, h1] at h
  · by_cases h2 : (keptInfos wm slips).isEmpty
    · simp [runFull, h1, h2] at h
    · by_cases h3 : labels.length ≠ slips.length
      · exact hsub (by simpa [runFull, h1, h2, h3] using h)
      · by_cases h4 :
          (((sortedIdxList wm slips).filter (fun j => labels.length ≤ j)).isEmpty = false)
        · exact hsub (by simpa [runFull, h1, h2, h3, h4] using h)
        · exact hsub (by simpa [runFull, h1, h2, h3, h4] using h)

/-! ### Area-set lemmas -/

theorem setInsert_ne_nil (a : String) (l : List String) : setInsert a l ≠ [] := by
  unfold setInsert
  by_cases h : a ∈ l
  · rw [if_pos h]
    exact List.ne_nil_of_mem h
  · rw [if_neg h]
    simp

theorem foldl_setInsert_ne_nil (f : Item → String) (p : List Item) :
    ∀ {acc : List String}, acc ≠ [] →
      p.foldl (fun acc it => setInsert (f it) acc) acc ≠ [] := by
  induction p with
  | nil => intro acc h; simpa using h
  | cons it rest ih =>
    intro acc _
    rw [List.foldl_cons]
    exact ih (setInsert_ne_nil (f it) acc)

theorem areasOfPage_ne_nil {wm : WarehouseMap} {p : SlipPage} (h : p ≠ []) :
    areasOfPage wm p ≠ [] := by
  rcases p with _ | ⟨it, rest⟩
  · exact absurd rfl h
  · unfold areasOfPage
    rw [List.foldl_cons]
    exact foldl_setInsert_ne_nil _ rest (setInsert_ne_nil _ [])

theorem foldl_setInsert_const {f : Item → String} {u : String} :
    ∀ (p : List Item), (∀ it ∈ p, f it = u) →
      p.foldl (fun acc it => setInsert (f it) acc) [u] = [u] := by
  intro p
  induction p with
  | nil => intro _; rfl
  | cons it rest ih =>
    intro hall
    rw [List.foldl_cons]
    have hit : f it = u := hall it (by simp)
    have hins : setInsert (f it) [u] = [u] := by
      rw [hit]; unfold setInsert; rw [if_pos (by simp)]
    rw [hins]
    exact ih (fun x hx => hall x (List.mem_cons_of_mem it hx))

theorem areasOfPage_const {wm : WarehouseMap} {u : String} {p : SlipPage}
    (hne : p ≠ []) (hall : ∀ it ∈ p, get_warehouse_area (normTitle it.1) wm = u) :
    areasOfPage wm p = [u] := by
  rcases p with _ | ⟨it, rest⟩
  · exact absurd rfl hne
  · unfold areasOfPage
    rw [List.foldl_cons]
    have hit : get_warehouse_area (normTitle it.1) wm = u := hall it (by simp)
    have h0 : setInsert (get_warehouse_area (normTitle it.1) wm) [] = [u] := by
      rw [hit]; rfl
    rw [h0]
    exact foldl_setInsert_const rest (fun x hx => hall x (List.mem_cons_of_mem it hx))

theorem pageKept_iff (wm : WarehouseMap) (p : SlipPage) :
    pageKept wm p = true ↔ (areasOfPage wm p ≠ [] ∨ hasSamples p = true) := by
  unfold pageKept
  by_cases hp : p.isEmpty
  · have hpnil : p = [] := List.isEmpty_iff.mp hp
    subst hpnil
    simp [areasOfPage, hasSamples]
  · have hpne : p ≠ [] := by
      intro h0; subst h0; simp at hp
    rw [if_neg (by simp [hp])]
    constructor
    · intro _
      exact Or.inl (areasOfPage_ne_nil hpne)
    · intro _
      by_cases h2 : areasOfPage wm p = [] ∧ hasSamples p = false
      · exact absurd h2.1 (areasOfPage_ne_nil hpne)
      · rw [if_neg h2]

/-! ### Summary-bucket lemmas -/

theorem addToBucket_mem {acc : List (String × List Item)} {a : String} {it : Item}
    {pr : String × List Item} (h : pr ∈ addToBucket acc a it) :
    ∀ e ∈ pr.2, (∃ its, (pr.1, its) ∈ acc ∧ e ∈ its) ∨ e = it := by
  induction acc with
  | nil =>
    simp only [addToBucket, List.mem_singleton] at h
    subst h
    intro e he
    simp only [List.mem_singleton] at he
    exact Or.inr he
  | cons b rest ih =>
    rcases b with ⟨a', its⟩
    simp only [addToBucket] at h
    by_cases hb : a' = a
    · rw [if_pos hb] at h
      rcases List.mem_cons.mp h with rfl | hmem
      · intro e he
        rcases List.mem_append.mp he with h1 | h2
        · exact Or.inl ⟨its, by simp, h1⟩
        · simp only [List.mem_singleton] at h2
          exact Or.inr h2
      · intro e he
        exact Or.inl ⟨pr.2, List.mem_cons_of_mem _ hmem, he⟩
    · rw [if_neg hb] at h
      rcases List.mem_cons.mp h with rfl | hmem
      · intro e he
        exact Or.inl ⟨its, by simp, he⟩
      · intro e he
        rcases ih hmem e he with ⟨its2, h2, h3⟩ | h2
        · exact Or.inl ⟨its2, List.mem_cons_of_mem _ h2, h3⟩
        · exact Or.inr h2

theorem pageIntoSummary_mem {wm : WarehouseMap} :
    ∀ (p : SlipPage) (acc : List (String × List Item)) {pr : String × List Item},
      pr ∈ pageIntoSummary wm acc p →
      ∀ e ∈ pr.2, (∃ its, (pr.1, its) ∈ acc ∧ e ∈ its) ∨ e ∈ p := by
  intro p
  induction p with
  | nil =>
    intro acc pr h e he
    exact Or.inl ⟨pr.2, h, he⟩
  | cons it rest ih =>
    intro acc pr h e he
    have h' : pr ∈ pageIntoSummary wm
        (addToBucket acc (get_warehouse_area (normTitle it.1) wm) it) rest := by
      simpa [pageIntoSummary, List.foldl_cons] using h
    rcases ih _ h' e he with ⟨its, hmem, hin⟩ | hin
    · rcases addToBucket_mem hmem e hin with ⟨its2, h2, h3⟩ | h2
      · exact Or.inl ⟨its2, h2, h3⟩
      · exact Or.inr (by simp [h2])
    · exact Or.inr (List.mem_cons_of_mem it hin)

theorem summaryFold_mem {wm : WarehouseMap} {slips : List SlipPage} :
    ∀ (idxs : List Nat) (acc : List (String × List Item)) {pr : String × List Item},
      pr ∈ idxs.foldl
        (fun acc idx =>
          match slips[idx]? with
          | none => acc
          | some p => pageIntoSummary wm acc p) acc →
      ∀ e ∈ pr.2, (∃ its, (pr.1, its) ∈ acc ∧ e ∈ its) ∨
        ∃ j p, j ∈ idxs ∧ slips[j]? = some p ∧ e ∈ p := by
  intro idxs
  induction idxs with
  | nil =>
    intro acc pr h e he
    exact Or.inl ⟨pr.2, h, he⟩
  | cons j js ih =>
    intro acc pr h e he
    rw [List.foldl_cons] at h
    cases hj : slips[j]? with
    | none =>
      rw [hj] at h
      rcases ih acc h e he with hleft | ⟨j2, p2, hj2, hp2, he2⟩
      · exact Or.inl hleft
      · exact Or.inr ⟨j2, p2, List.mem_cons_of_mem j hj2, hp2, he2⟩
    | some p =>
      rw [hj] at h
      rcases ih _ h e he with ⟨its, hmem, hin⟩ | ⟨j2, p2, hj2, hp2, he2⟩
      · rcases pageIntoSummary_mem p acc hmem e hin with hacc | hp
        · exact Or.inl hacc
        · exact Or.inr ⟨j, p, by simp, hj, hp⟩
      · exact Or.inr ⟨j2, p2, List.mem_cons_of_mem j hj2, hp2, he2⟩

theorem summaryData_mem {wm : WarehouseMap} {slips : List SlipPage}
    {idxs : List Nat} {a : String} {its : List Item}
    (h : (a, its) ∈ summaryData wm slips idxs) :
    ∀ e ∈ its, ∃ j p, j ∈ idxs ∧ slips[j]? = some p ∧ e ∈ p := by
  intro e he
  rcases summaryFold_mem idxs [] h e he with ⟨its2, h2, _⟩ | hr
  · simp at h2
  · exact hr

theorem addToBucket_key {acc : List (String × List Item)} {a : String} {it : Item}
    {pr : String × List Item} (h : pr ∈ addToBucket acc a it) :
    ∀ e ∈ pr.2, (∃ its, (pr.1, its) ∈ acc ∧ e ∈ its) ∨ (e = it ∧ pr.1 = a) := by
  induction acc with
  | nil =>
    simp only [addToBucket, List.mem_singleton] at h
    subst h
    intro e he
    simp only [List.mem_singleton] at he
    exact Or.inr ⟨he, rfl⟩
  | cons b rest ih =>
    rcases b with ⟨a', its⟩
    simp only [addToBucket] at h
    by_cases hb : a' = a
    · rw [if_pos hb] at h
      rcases List.mem_cons.mp h with rfl | hmem
      · intro e he
        rcases List.mem_append.mp he with h1 | h2
        · exact Or.inl ⟨its, by simp, h1⟩
        · simp only [List.mem_singleton] at h2
          exact Or.inr ⟨h2, hb⟩
      · intro e he
        exact Or.inl ⟨pr.2, List.mem_cons_of_mem _ hmem, he⟩
    · rw [if_neg hb] at h
      rcases List.mem_cons.mp h with rfl | hmem
      · intro e he
        exact Or.inl ⟨its, by simp, he⟩
      · intro e he
        rcases ih hmem e he with ⟨its2, h2, h3⟩ | h2
        · exact Or.inl ⟨its2, List.mem_cons_of_mem _ h2, h3⟩
        · exact Or.inr h2

theorem pageIntoSummary_key {wm : WarehouseMap} :
    ∀ (p : SlipPage) (acc : List (String × List Item)) {pr : String × List Item},
      pr ∈ pageIntoSummary wm acc p →
      ∀ e ∈ pr.2, (∃ its, (pr.1, its) ∈ acc ∧ e ∈ its) ∨
        (e ∈ p ∧ pr.1 = get_warehouse_area (normTitle e.1) wm) := by
  intro p
  induction p with
  | nil =>
    intro acc pr h e he
    exact Or.inl ⟨pr.2, h, he⟩
  | cons it rest ih =>
    intro acc pr h e he
    have h' : pr ∈ pageIntoSummary wm
        (addToBucket acc (get_warehouse_area (normTitle it.1) wm) it) rest := by
      simpa [pageIntoSummary, List.foldl_cons] using h
    rcases ih _ h' e he with ⟨its, hmem, hin⟩ | ⟨hin, hkey⟩
    · rcases addToBucket_key hmem e hin with ⟨its2, h2, h3⟩ | ⟨heq, hkey⟩
      · exact Or.inl ⟨its2, h2, h3⟩
      · subst heq
        exact Or.inr ⟨by simp, hkey⟩
    · exact Or.inr ⟨List.mem_cons_of_mem it hin, hkey⟩

theorem summaryFold_key {wm : WarehouseMap} {slips : List SlipPage} :
    ∀ (idxs : List Nat) (acc : List (String × List Item)) {pr : String × List Item},
      pr ∈ idxs.foldl
        (fun acc idx =>
          match slips[idx]? with
          | none => acc
          | some p => pageIntoSummary wm acc p) acc →
      ∀ e ∈ pr.2, (∃ its, (pr.1, its) ∈ acc ∧ e ∈ its) ∨
        pr.1 = get_warehouse_area (normTitle e.1) wm := by
  intro idxs
  induction idxs with
  | nil =>
    intro acc pr h e he
    exact Or.inl ⟨pr.2, h, he⟩
  | cons j js ih =>
    intro acc pr h e he
    rw [List.foldl_cons] at h
    cases hj : slips[j]? with
    | none =>
      rw [hj] at h
      exact ih acc h e he
    | some p =>
      rw [hj] at h
      rcases ih _ h e he with ⟨its, hmem, hin⟩ | hkey
      · rcases pageIntoSummary_key p acc hmem e hin with hacc | ⟨_, hkey⟩
        · exact Or.inl hacc
        · exact Or.inr hkey
      · exact Or.inr hkey

theorem summaryData_key {wm : WarehouseMap} {slips : List SlipPage}
    {idxs : List Nat} {a : String} {its : List Item}
    (h : (a, its) ∈ summaryData wm slips idxs) :
    ∀ e ∈ its, a = get_warehouse_area (normTitle e.1) wm := by
  intro e he
  rcases summaryFold_key idxs [] h e he with ⟨its2, h2, _⟩ | hr
  · simp at h2
  · exact hr

/-! ### Quantity-merge lemmas -/

theorem lookupQty_upsert_self (acc : List ((String × String) × Int))
    (k : String × String) (n : Int) :
    lookupQty (upsertQty acc k n) k = some ((lookupQty acc k).getD 0 + n) := by
  induction acc with
  | nil => simp [upsertQty, lookupQty]
  | cons b rest ih =>
    rcases b with ⟨k', m⟩
    by_cases hk : k' = k
    · simp [upsertQty, lookupQty, hk]
    · simp [upsertQty, lookupQty, hk, ih]

theorem lookupQty_upsert_ne (acc : List ((String × String) × Int))
    {k k2 : String × String} (n : Int) (hne : k2 ≠ k) :
    lookupQty (upsertQty acc k n) k2 = lookupQty acc k2 := by
  induction acc with
  | nil => simp [upsertQty, lookupQty, Ne.symm hne]
  | cons b rest ih =>
    rcases b with ⟨k', m⟩
    by_cases hk : k' = k
    · subst hk
      simp [upsertQty, lookupQty, Ne.symm hne]
    · by_cases hk2 : k' = k2
      · subst hk2
        simp [upsertQty, lookupQty, hne]
      · simp [upsertQty, lookupQty, hk, hk2, ih]

theorem lookupQty_foldl (rows : List Item) :
    ∀ (acc : List ((String × String) × Int)) (k : String × String),
      lookupQty (rows.foldl uniqueStep acc) k =
        match lookupQty acc k with
        | some m => some (m + (matchingQtys rows k).sum)
        | none =>
          if matchingQtys rows k = [] then none
          else some (matchingQtys rows k).sum := by
  induction rows with
  | nil =>
    intro acc k
    cases h : lookupQty acc k <;> simp [matchingQtys, h]
  | cons r rest ih =>
    intro acc k
    rw [List.foldl_cons]
    cases hparse : parseIntStr r.2.2 with
    | none =>
      have hstep : uniqueStep acc r = acc := by
        simp [uniqueStep, hparse]
      have hm : matchingQtys (r :: rest) k = matchingQtys rest k := by
        unfold matchingQtys
        by_cases hk : (r.1, r.2.1) = k
        · simp [List.filter_cons, hk, List.filterMap_cons, hparse]
        · simp [List.filter_cons, hk]
      rw [hstep, ih, hm]
    | some n =>
      by_cases hk : (r.1, r.2.1) = k
      · have hstep : uniqueStep acc r = upsertQty acc k n := by
          simp [uniqueStep, hparse, hk]
        have hm : matchingQtys (r :: rest) k = n :: matchingQtys rest k := by
          unfold matchingQtys
          simp [List.filter_cons, hk, List.filterMap_cons, hparse]
        rw [hstep, ih, hm]
        rw [lookupQty_upsert_self]
        cases hacc : lookupQty acc k with
        | none =>
          simp only [hacc, Option.getD_none, List.sum_cons]
          have : (0 : Int) + n + (matchingQtys rest k).sum =
              n + (matchingQtys rest k).sum := by omega
          rw [this]
          simp
        | some m =>
          simp only [hacc, Option.getD_some, List.sum_cons]
          have : m + n + (matchingQtys rest k).sum =
              m + (n + (matchingQtys rest k).sum) := by omega
          rw [this]
      · have hstep : uniqueStep acc r = upsertQty acc (r.1, r.2.1) n := by
          simp [uniqueStep, hparse]
        have hm : matchingQtys (r :: rest) k = matchingQtys rest k := by
          unfold matchingQtys
          simp [List.filter_cons, hk]
        rw [hstep, ih, hm, lookupQty_upsert_ne _ n (fun h => hk h.symm)]

/-! ### First-comma-token lemmas -/

theorem takeWhile_all {p : α → Bool} {l : List α} (h : ∀ c ∈ l, p c = true) :
    l.takeWhile p = l := by
  induction l with
  | nil => rfl
  | cons x xs ih =>
    rw [List.takeWhile_cons, if_pos (h x (by simp))]
    rw [ih (fun c hc => h c (List.mem_cons_of_mem x hc))]

theorem takeWhile_append_stop {p : α → Bool} {l r : List α} {x : α}
    (hl : ∀ c ∈ l, p c = true) (hx : p x = false) :
    (l ++ x :: r).takeWhile p = l := by
  induction l with
  | nil => simp [List.takeWhile_cons, hx]
  | cons y ys ih =>
    rw [List.cons_append, List.takeWhile_cons, if_pos (hl y (by simp))]
    rw [ih (fun c hc => hl c (List.mem_cons_of_mem y hc))]

theorem get_primary_area_joinComma {x : String} {rest : List String}
    (hx : ∀ c ∈ x.toList, c ≠ ',') :
    get_primary_area (joinComma (x :: rest)) = String.mk (trimChars x.toList) := by
  have hx' : ∀ c ∈ x.toList, (c != ',') = true := by
    intro c hc
    exact bne_iff_ne.mpr (hx c hc)
  cases rest with
  | nil =>
    unfold joinComma get_primary_area
    rw [takeWhile_all hx']
  | cons y ys =>
    unfold get_primary_area
    have hdata : (joinComma (x :: y :: ys)).toList =
        x.toList ++ ',' :: ' ' :: (joinComma (y :: ys)).toList := by
      show (x ++ ", " ++ joinComma (y :: ys)).data =
        x.data ++ ',' :: ' ' :: (joinComma (y :: ys)).data
      rw [String.data_append, String.data_append]
      rw [List.append_assoc]
      rfl
    rw [hdata, takeWhile_append_stop hx' (by rfl)]

/-! ### The effective area set -/

theorem determine_eq_effective (s : List String) :
    determine_area_identifier s = joinComma (insertionSort strLeb (effectiveAreas s)) := by
  unfold determine_area_identifier effectiveAreas
  by_cases h : "B16" ∈ s ∧ 1 < s.length
  · rw [if_pos h, if_pos h]
  · rw [if_neg h, if_neg h]

theorem effectiveAreas_sub {s : List String} {a : String}
    (h : a ∈ effectiveAreas s) : a ∈ s := by
  unfold effectiveAreas at h
  by_cases hc : "B16" ∈ s ∧ 1 < s.length
  · rw [if_pos hc] at h
    exact List.mem_of_mem_filter h
  · rw [if_neg hc] at h
    exact h

/-! ### Claim theorems -/

/-- Claim C4: the area resolver returns "garage" for every normalized title
containing "sample" (case-insensitive), even when the map has an exact
entry for that title; otherwise an exact match returns that entry's area,
and otherwise the sentinel "Unknown Area" is returned (no fuzzy or partial
matching). -/
theorem c4_area_resolver (product : String) (wm : WarehouseMap) :
    (containsSampleStr product = true → get_warehouse_area product wm = "garage") ∧
    (containsSampleStr product = false →
      ∀ area, wm product = some area → get_warehouse_area product wm = area) ∧
    (containsSampleStr product = false → wm product = none →
      get_warehouse_area product wm = "Unknown Area") := by
  refine ⟨?_, ?_, ?_⟩
  · intro h
    simp [get_warehouse_area, h]
  · intro h area harea
    simp [get_warehouse_area, h, harea]
  · intro h hnone
    simp [get_warehouse_area, h, hnone]

/-- Witness for C4: "blue sample tee" has an exact map entry for A13 yet
resolves to "garage"; an exact non-sample hit returns its area; a miss
returns the sentinel. -/
theorem c4_witness :
    get_warehouse_area "blue sample tee" wmSamp = "garage" ∧
    wmSamp "blue sample tee" = some "A13" ∧
    get_warehouse_area "tee" wmSamp = "B11" ∧
    get_warehouse_area "cap" wmSamp = "Unknown Area" :=
  ⟨(c4_area_resolver "blue sample tee" wmSamp).1 (by decide),
   by decide,
   (c4_area_resolver "tee" wmSamp).2.1 (by decide) "B11" (by decide),
   (c4_area_resolver "cap" wmSamp).2.2 (by decide) (by decide)⟩

/-- Claim C5: the composed area label is the comma-joined, alphabetically
sorted member list, except that "B16" is dropped first when the set has more
than one member and contains it; the singleton B16 set keeps its label, the
pair with D16 composes to "D16", the A13/D16 pair composes to
"A13, D16", and the composition depends only on the set (it is invariant
under permutation of the member list). -/
theorem c5_area_label_composition (s : List String) :
    ("B16" ∈ s ∧ 1 < s.length →
      determine_area_identifier s =
        joinComma (insertionSort strLeb (s.filter (fun a => a != "B16")))) ∧
    (¬("B16" ∈ s ∧ 1 < s.length) →
      determine_area_identifier s = joinComma (insertionSort strLeb s)) ∧
    determine_area_identifier ["B16"] = "B16" ∧
    determine_area_identifier ["B16", "D16"] = "D16" ∧
    determine_area_identifier ["A13", "D16"] = "A13, D16" ∧
    (∀ t : List String, s.Perm t →
      determine_area_identifier s = determine_area_identifier t) := by
  refine ⟨?_, ?_, by decide, by decide, by decide, ?_⟩
  · intro h
    unfold determine_area_identifier
    rw [if_pos h]
  · intro h
    unfold determine_area_identifier
    rw [if_neg h]
  · intro t hperm
    have hmem : ("B16" ∈ s) ↔ ("B16" ∈ t) := hperm.mem_iff
    have hlen : s.length = t.length := hperm.length_eq
    have hsort : ∀ (u v : List String), u.Perm v →
        insertionSort strLeb u = insertionSort strLeb v := by
      intro u v huv
      have h1 : (insertionSort strLeb u).Perm (insertionSort strLeb v) :=
        ((insertionSort_perm strLeb u).trans huv).trans
          (insertionSort_perm strLeb v).symm
      exact @List.eq_of_perm_of_sorted String (fun a b => strLeb a b = true)
        ⟨fun _ _ => strLeb_antisymm⟩ _ _ h1
        (insertionSort_pairwise strLeb_total
          (fun _ _ _ h1 h2 => strLeb_trans h1 h2) u)
        (insertionSort_pairwise strLeb_total
          (fun _ _ _ h1 h2 => strLeb_trans h1 h2) v)
    by_cases hc : "B16" ∈ s ∧ 1 < s.length
    · have hc' : "B16" ∈ t ∧ 1 < t.length := ⟨hmem.mp hc.1, by omega⟩
      unfold determine_area_identifier
      rw [if_pos hc, if_pos hc', hsort _ _ (hperm.filter _)]
    · have hc' : ¬("B16" ∈ t ∧ 1 < t.length) := by
        intro hcc
        exact hc ⟨hmem.mpr hcc.1, by omega⟩
      unfold determine_area_identifier
      rw [if_neg hc, if_neg hc', hsort _ _ hperm]

/-- Witness for C5: the B16 branch of the composition applied at the
concrete two-member set containing B16. -/
theorem c5_witness :
    determine_area_identifier ["B16", "D16"] =
      joinComma (insertionSort strLeb
        (["B16", "D16"].filter (fun a => a != "B16"))) :=
  (c5_area_label_composition ["B16", "D16"]).1 ⟨by decide, by decide⟩

/-- Claim C3: the page sort produces a permutation of its input ordered by
the key (areaRank, primary product title) ascending, where areaRank is the
position of the area label's first comma-separated token in
AREA_SORT_ORDER (or its length when the token is absent), and the sort is
stable: for every key value, the pages carrying that key appear in their
original relative order. -/
theorem c3_stable_sort (l : List PageInfo) :
    (sortInfos l).Perm l ∧
    (sortInfos l).Pairwise (fun a b => keyLe (sort_key a) (sort_key b)) ∧
    (∀ k : Nat × String,
      (sortInfos l).filter (fun x => decide (sort_key x = k)) =
        l.filter (fun x => decide (sort_key x = k))) := by
  unfold sortInfos
  refine ⟨insertionSort_perm infoLeb l, ?_, ?_⟩
  · have hp := insertionSort_pairwise infoLeb_total infoLeb_trans l
    exact hp.imp (fun h => keyLeb_iff.mp h)
  · intro k
    apply filter_insertionSort
    intro x y hx hy
    have hkx : sort_key x = k := of_decide_eq_true hx
    have hky : sort_key y = k := of_decide_eq_true hy
    unfold infoLeb
    rw [hkx, hky]
    exact keyLeb_refl k

/-- Claim C9: the resolver is total, so every page with items gets a
non-empty area set and every kept page has one; a page whose items all
resolve to "Unknown Area" is still kept, its composed label is
"Unknown Area", and its sort rank is the length of AREA_SORT_ORDER while
every listed area ranks strictly lower; yet "Unknown Area" is not in
AREA_SORT_ORDER, the manifest renders only areas of AREA_SORT_ORDER, and
every manifest entry sits in the bucket of its own resolved area — so the
items of such a page sit only in the "Unknown Area" bucket and appear in no
manifest section. -/
theorem c9_unknown_area_pages :
    (∀ (wm : WarehouseMap) (p : SlipPage), p ≠ [] → areasOfPage wm p ≠ []) ∧
    (∀ (wm : WarehouseMap) (p : SlipPage), pageKept wm p = true →
      areasOfPage wm p ≠ []) ∧
    (∀ (wm : WarehouseMap) (p : SlipPage), p ≠ [] →
      (∀ it ∈ p, get_warehouse_area (normTitle it.1) wm = "Unknown Area") →
      pageKept wm p = true ∧
      determine_area_identifier (areasOfPage wm p) = "Unknown Area" ∧
      area_sort_value (get_primary_area "Unknown Area") = AREA_SORT_ORDER.length) ∧
    (∀ a ∈ AREA_SORT_ORDER, area_sort_value a < AREA_SORT_ORDER.length) ∧
    "Unknown Area" ∉ AREA_SORT_ORDER ∧
    (∀ sd : List (String × List Item), "Unknown Area" ∉ manifestAreas sd) ∧
    (∀ (wm : WarehouseMap) (slips : List SlipPage) (idxs : List Nat) (a : String)
      (its : List Item) (e : Item), (a, its) ∈ summaryData wm slips idxs →
      e ∈ its → a = get_warehouse_area (normTitle e.1) wm) := by
  refine ⟨?_, ?_, ?_, by decide, by decide, ?_, ?_⟩
  · intro wm p h
    exact areasOfPage_ne_nil h
  · intro wm p h
    have hne : p ≠ [] := by
      intro h0
      subst h0
      simp [pageKept] at h
    exact areasOfPage_ne_nil hne
  · intro wm p hne hall
    have hu : areasOfPage wm p = ["Unknown Area"] := areasOfPage_const hne hall
    refine ⟨?_, ?_, by decide⟩
    · exact (pageKept_iff wm p).mpr (Or.inl (by rw [hu]; simp))
    · rw [hu]
      decide
  · intro sd hmem
    unfold manifestAreas at hmem
    have hmem2 : "Unknown Area" ∈ AREA_SORT_ORDER := List.mem_of_mem_filter hmem
    simp [AREA_SORT_ORDER] at hmem2
  · intro wm slips idxs a its e hmem he
    exact summaryData_key hmem e he

/-- Witness for C9: a one-item page whose item misses the empty map is kept
and labeled "Unknown Area". -/
theorem c9_witness :
    pageKept wmNone [(("Widget", "M", "1") : Item)] = true ∧
    determine_area_identifier
      (areasOfPage wmNone [(("Widget", "M", "1") : Item)]) = "Unknown Area" := by
  have h := c9_unknown_area_pages.2.2.1 wmNone [(("Widget", "M", "1") : Item)]
    (by decide) (by decide)
  exact ⟨h.1, h.2.1⟩

/-- Claim C10: for every area set the sort's primary area is the
alphabetically smallest member of the effective (post-B16-removal) area
set, not the member ranked earliest in AREA_SORT_ORDER; concretely the set
with B11 and D16 composes to "B11, D16" and sorts with B11's rank 2 even
though D16's rank 1 is earlier. -/
theorem c10_primary_area_alphabetical :
    (∀ s : List String, (∀ a ∈ s, ∀ c ∈ a.toList, c ≠ ',') →
      effectiveAreas s ≠ [] →
      ∃ x ∈ effectiveAreas s, (∀ b ∈ effectiveAreas s, strLe x b) ∧
        get_primary_area (determine_area_identifier s) =
          String.mk (trimChars x.toList)) ∧
    determine_area_identifier ["B11", "D16"] = "B11, D16" ∧
    get_primary_area "B11, D16" = "B11" ∧
    area_sort_value "B11" = 2 ∧
    area_sort_value "D16" = 1 ∧
    area_sort_value "D16" < area_sort_value "B11" := by
  refine ⟨?_, by decide, by decide, by decide, by decide, by decide⟩
  intro s hcomma hne
  rw [determine_eq_effective]
  rcases hsort : insertionSort strLeb (effectiveAreas s) with _ | ⟨x, rest⟩
  · have hperm := insertionSort_perm strLeb (effectiveAreas s)
    rw [hsort] at hperm
    exact absurd hperm.symm.eq_nil hne
  · have hperm := insertionSort_perm strLeb (effectiveAreas s)
    rw [hsort] at hperm
    have hxmem : x ∈ effectiveAreas s := hperm.subset (by simp)
    have hsorted := insertionSort_pairwise strLeb_total
      (fun _ _ _ h1 h2 => strLeb_trans h1 h2) (effectiveAreas s)
    rw [hsort] at hsorted
    have hmin : ∀ b ∈ effectiveAreas s, strLe x b := by
      intro b hb
      have hbl : b ∈ x :: rest := hperm.mem_iff.mpr hb
      rcases List.mem_cons.mp hbl with rfl | hbr
      · exact strLeb_refl b
      · exact (List.pairwise_cons.mp hsorted).1 b hbr
    refine ⟨x, hxmem, hmin, ?_⟩
    exact get_primary_area_joinComma (hcomma x (effectiveAreas_sub hxmem))

/-- Witness for C10: the general statement applied at the concrete area set
with B11 and D16. -/
theorem c10_witness :
    ∃ x ∈ effectiveAreas ["B11", "D16"],
      (∀ b ∈ effectiveAreas ["B11", "D16"], strLe x b) ∧
      get_primary_area (determine_area_identifier ["B11", "D16"]) =
        String.mk (trimChars x.toList) :=
  c10_primary_area_alphabetical.1 ["B11", "D16"] (by decide) (by decide)

/-- Claim C1: whenever a run writes the shipping-label output, the same
permutation has been applied to both decks — the label output has exactly
as many pages as the kept-and-sorted slip pages, the label page at output
position i is the original label page at index sortedIndices i, and the
slip page at output position i carries the content of the original slip
page at that same original index. -/
theorem c1_same_permutation {α : Type} (wm : WarehouseMap) (slips : List SlipPage)
    (labels : List α) (ok : Bool) (L : List α)
    (h : (runFull wm slips labels ok).labelFile = some L) :
    L.length = (runFull wm slips labels ok).sortedInfos.length ∧
    (runFull wm slips labels ok).sortedIndices =
      ((runFull wm slips labels ok).sortedInfos).map (fun t => t.origIndex) ∧
    (∀ i : Nat, L[i]? =
      ((runFull wm slips labels ok).sortedIndices[i]?).bind (fun j => labels[j]?)) ∧
    (∀ i : Nat,
      (((runFull wm slips labels ok).sortedInfos)[i]?).map (fun t => t.items) =
        ((runFull wm slips labels ok).sortedIndices[i]?).bind (fun j => slips[j]?)) := by
  rcases runFull_label_some h with ⟨hL, hidx, hinfo, hall⟩
  refine ⟨?_, ?_, ?_, ?_⟩
  · rw [hL, hinfo, buildLabelDeck_length hall]
    unfold sortedIdxList
    exact List.length_map _ _
  · rw [hidx, hinfo]
    rfl
  · intro i
    rw [hL, hidx, buildLabelDeck_getElem hall i]
  · intro i
    rw [hidx, hinfo]
    unfold sortedIdxList
    rw [List.getElem?_map]
    cases hi : (sortInfos (keptInfos wm slips))[i]? with
    | none => simp
    | some info =>
      have hmem : info ∈ sortInfos (keptInfos wm slips) := List.getElem?_mem hi
      unfold sortInfos at hmem
      have hm : info ∈ keptInfos wm slips := mem_insertionSort.mp hmem
      have hs := (keptInfos_sound hm).1
      simp only [Option.map_some', Option.some_bind]
      exact hs.symm

/-- Witness for C1: the invariant applied to a concrete one-page run whose
label file is written. -/
theorem c1_witness :
    (runFull wmEx slipsEx ([7] : List Nat) true).labelFile = some [7] ∧
    [7].length = (runFull wmEx slipsEx ([7] : List Nat) true).sortedInfos.length := by
  have h : (runFull wmEx slipsEx ([7] : List Nat) true).labelFile = some [7] := by
    decide
  exact ⟨h, (c1_same_permutation wmEx slipsEx [7] true [7] h).1⟩

/-- Claim C2 counterexample: a 1-page slip deck paired with a 0-page label
deck aborts on the page-count mismatch, but the sorted packing-slips file
was already written before the check and exists at its target path —
contradicting the claim that neither output file exists after the abort. -/
theorem c2_counterexample :
    ([] : List Nat).length ≠ slipsEx.length ∧
    (runFull wmEx slipsEx ([] : List Nat) true).aborted = true ∧
    (runFull wmEx slipsEx ([] : List Nat) true).labelFile = none ∧
    (runFull wmEx slipsEx ([] : List Nat) true).slipFileExists = true := by
  decide

/-- Claim C2 amended: a label-deck page-count mismatch always aborts the
run with an error before the sorted shipping-labels file is written, so
that file never exists; the sorted packing-slips file, however, has
already been written by the time of the check — whenever at least one
page was kept it exists at the target path (its write having succeeded)
despite the abort. -/
theorem c2_amended {α : Type} (wm : WarehouseMap) (slips : List SlipPage)
    (labels : List α) (ok : Bool) (h : labels.length ≠ slips.length) :
    (runFull wm slips labels ok).labelFile = none ∧
    (runFull wm slips labels ok).aborted = true ∧
    ((runFull wm slips labels ok).keptIndices ≠ [] →
      (runFull wm slips labels ok).slipFileExists = ok) := by
  by_cases h1 : slips.length = 0
  · simp [runFull, h1]
  · by_cases h2 : (keptInfos wm slips).isEmpty
    · simp [runFull, h1, h2]
    · simp [runFull, h1, h2, h]

/-- Witness for C2 (amended): the concrete mismatching run. -/
theorem c2_witness :
    (runFull wmEx slipsEx ([] : List Nat) true).labelFile = none ∧
    (runFull wmEx slipsEx ([] : List Nat) true).aborted = true := by
  have h := c2_amended wmEx slipsEx ([] : List Nat) true (by decide)
  exact ⟨h.1, h.2.1⟩

/-- Claim C6: a page is kept exactly when its resolved area set is
non-empty or some parsed item's title contains "sample"; in consequence a
page whose parsed item list is empty is excluded — its index appears
neither among the kept nor among the sorted indices — and every manifest
entry comes from the items of a page at a kept index. -/
theorem c6_keep_rule :
    (∀ (wm : WarehouseMap) (p : SlipPage),
      pageKept wm p = true ↔ (areasOfPage wm p ≠ [] ∨ hasSamples p = true)) ∧
    (∀ {α : Type} (wm : WarehouseMap) (slips : List SlipPage) (labels : List α)
      (ok : Bool) (idx : Nat) (p : SlipPage), slips[idx]? = some p → p = [] →
      idx ∉ (runFull wm slips labels ok).keptIndices ∧
      idx ∉ (runFull wm slips labels ok).sortedIndices) ∧
    (∀ (wm : WarehouseMap) (slips : List SlipPage) (idxs : List Nat) (a : String)
      (its : List Item) (e : Item), (a, its) ∈ summaryData wm slips idxs →
      e ∈ its → ∃ j p, j ∈ idxs ∧ slips[j]? = some p ∧ e ∈ p) := by
  refine ⟨pageKept_iff, ?_, ?_⟩
  · intro α wm slips labels ok idx p hget hpnil
    subst hpnil
    have hmain : (idx ∈ (runFull wm slips labels ok).keptIndices ∨
        idx ∈ (runFull wm slips labels ok).sortedIndices) → False := by
      intro hmem
      rcases runFull_indices_sound hmem with ⟨info, hinfo, hidx⟩
      rcases keptInfos_sound hinfo with ⟨hs, hk, _⟩
      rw [hidx, hget] at hs
      have hnil : info.items = [] := by
        injection hs with h'
        exact h'.symm
      rw [hnil] at hk
      simp [pageKept] at hk
    exact ⟨fun hmem => hmain (Or.inl hmem), fun hmem => hmain (Or.inr hmem)⟩
  · intro wm slips idxs a its e hmem he
    exact summaryData_mem hmem e he

/-- Witness for C6: in a concrete two-page deck the first page has no
parsed items and its index 0 is excluded from both index lists. -/
theorem c6_witness :
    (0 : Nat) ∉ (runFull wmEx [([] : SlipPage), [(("Tee", "M", "2") : Item)]]
      ([5, 7] : List Nat) true).keptIndices ∧
    (0 : Nat) ∉ (runFull wmEx [([] : SlipPage), [(("Tee", "M", "2") : Item)]]
      ([5, 7] : List Nat) true).sortedIndices :=
  c6_keep_rule.2.1 wmEx [([] : SlipPage), [(("Tee", "M", "2") : Item)]]
    ([5, 7] : List Nat) true 0 [] (by decide) rfl

/-- Claim C7: within an area bucket of the manifest, entries sharing the
same (title, size) merge into one row whose quantity is the sum of their
integer-parsed quantities, and an entry whose quantity fails integer
parsing is dropped rather than counted as zero; concretely ("Tee","M",2)
and ("Tee","M",3) merge to quantity 5, an unparsable entry changes
nothing, and a lone unparsable entry yields no row. -/
theorem c7_quantity_merge :
    (∀ (rows : List Item) (k : String × String),
      lookupQty (uniqueProducts (sortProducts rows)) k =
        if matchingQtys rows k = [] then none
        else some (matchingQtys rows k).sum) ∧
    uniqueProducts (sortProducts
      [(("Tee", "M", "2") : Item), ("Tee", "M", "3")]) = [(("Tee", "M"), 5)] ∧
    uniqueProducts (sortProducts
      [(("Tee", "M", "2") : Item), ("Tee", "M", "x")]) = [(("Tee", "M"), 2)] ∧
    uniqueProducts (sortProducts [(("Tee", "M", "x") : Item)]) = [] := by
  refine ⟨?_, by decide, by decide, by decide⟩
  intro rows k
  have hperm : (matchingQtys (sortProducts rows) k).Perm (matchingQtys rows k) := by
    unfold matchingQtys sortProducts
    exact ((insertionSort_perm productRowLeb rows).filter _).filterMap _
  have hsum : (matchingQtys (sortProducts rows) k).sum = (matchingQtys rows k).sum :=
    hperm.sum_eq
  have hnil : (matchingQtys (sortProducts rows) k = []) ↔
      (matchingQtys rows k = []) := by
    rw [← List.length_eq_zero, ← List.length_eq_zero, hperm.length_eq]
  have hred : lookupQty ((sortProducts rows).foldl uniqueStep []) k =
      if matchingQtys (sortProducts rows) k = [] then none
      else some (matchingQtys (sortProducts rows) k).sum :=
    lookupQty_foldl (sortProducts rows) [] k
  unfold uniqueProducts
  by_cases hq : matchingQtys rows k = []
  · rw [hred, if_pos (hnil.mpr hq), if_pos hq]
  · rw [hred, if_neg (fun h2 => hq (hnil.mp h2)), if_neg hq, hsum]

/-- Claim C8 counterexample: with a valid matching pair of decks, a failed
write of the sorted packing-slips file does not stop the run — the
shipping-label processing and the second file write still execute, the
label file exists, and only the slips file is missing. -/
theorem c8_counterexample :
    (runFull wmEx slipsEx ([7] : List Nat) false).slipFileExists = false ∧
    (runFull wmEx slipsEx ([7] : List Nat) false).labelFile = some [7] ∧
    (runFull wmEx slipsEx ([7] : List Nat) false).aborted = false := by
  decide

/-- Claim C8 amended: the outcome of the packing-slips file write is
surfaced (error popup and log) but never consulted again: label
processing, the sorted index list, the label file and the abort flag are
identical whether that write succeeded or failed; only the slips file's
existence differs. -/
theorem c8_amended {α : Type} (wm : WarehouseMap) (slips : List SlipPage)
    (labels : List α) :
    (runFull wm slips labels false).labelFile =
      (runFull wm slips labels true).labelFile ∧
    (runFull wm slips labels false).sortedIndices =
      (runFull wm slips labels true).sortedIndices ∧
    (runFull wm slips labels false).aborted =
      (runFull wm slips labels true).aborted := by
  by_cases h1 : slips.length = 0
  · simp [runFull, h1]
  · by_cases h2 : (keptInfos wm slips).isEmpty
    · simp [runFull, h1, h2]
    · by_cases h3 : labels.length ≠ slips.length
      · simp [runFull, h1, h2, h3]
      · by_cases h4 : (((sortedIdxList wm slips).filter
            (fun j => labels.length ≤ j)).isEmpty = false)
        · simp [runFull, h1, h2, h3, h4]
        · simp [runFull, h1, h2, h3, h4]
